import Mathlib

/-!
Verification of the combiner-based statistics aggregation engine of the
`data-validation` repository.

The repository's `src/` tree holds the generator interface
(`statistics/generators/stats_generator.py`, abstract base classes whose four
operations `create_accumulator` / `add_input` / `merge_accumulators` /
`extract_output` all raise `NotImplementedError`) and the implementation's test
suite (`statistics/stats_impl_test.py`).  The implementation module
`stats_impl.py` itself is not part of `src/`; the definitions below therefore
model that missing implementation from the specification, and every behaviour
that the test suite pins down (expected protos, tie-breaks, error types) is
translated from the test file, which is the authoritative source.
-/

namespace TFDV

abbrev FeatureName := String

abbrev Value := String

/-- An example batch entry: an ordered mapping from feature name to the list of
values the feature holds in this example.  A feature that is absent from an
example simply has no entry (spec section 3, "Example batch"). -/
abbrev Example := List (FeatureName × List Value)

/-! ### Generic upsert association maps

`stats_impl` keeps per-feature partial state in dictionaries that are updated
in place while batches are added and merged.  We model such a dictionary as an
association list in first-observed key order, together with an upsert (`bump`)
that combines values for an existing key with a combine function `c` and
appends new keys at the end. -/

section AssocMap

variable {α β : Type} [DecidableEq α]

/-- Upsert a single `(key, value)` pair into an association list: combine with
the existing entry via `c`, or append a fresh entry at the end. -/
def bump (c : β → β → β) : List (α × β) → α → β → List (α × β)
  | [], k, v => [(k, v)]
  | (k₀, v₀) :: rest, k, v =>
    if k = k₀ then (k₀, c v₀ v) :: rest else (k₀, v₀) :: bump c rest k v

/-- Fold a list of raw pairs into an association list via `bump`. -/
def inserts (c : β → β → β) (m : List (α × β)) (ps : List (α × β)) :
    List (α × β) :=
  ps.foldl (fun acc p => bump c acc p.1 p.2) m

/-- The keys of an association list, in order. -/
def keysOf (m : List (α × β)) : List α := m.map Prod.fst

/-- Lookup in an association list. -/
def alookup : List (α × β) → α → Option β
  | [], _ => none
  | (k₀, v₀) :: rest, k => if k = k₀ then some v₀ else alookup rest k

/-- Combine an optional accumulated value with one more value. -/
def ocomb (c : β → β → β) (o : Option β) (v : β) : Option β :=
  some (o.elim v (fun u => c u v))

/-- Fold a plain list of values into an optional accumulated value. -/
def foldVals (c : β → β → β) : Option β → List β → Option β
  | o, [] => o
  | o, v :: vs => foldVals c (ocomb c o v) vs

/-- Collect, starting from `o`, all values of pairs in `ps` whose key is `a`,
in list order. -/
def collectFrom (c : β → β → β) (a : α) : Option β → List (α × β) → Option β
  | o, [] => o
  | o, p :: ps => collectFrom c a (if p.1 = a then ocomb c o p.2 else o) ps

theorem keysOf_nil : keysOf ([] : List (α × β)) = [] := rfl

theorem keysOf_cons (p : α × β) (l : List (α × β)) :
    keysOf (p :: l) = p.1 :: keysOf l := rfl

theorem keysOf_append (l l₀ : List (α × β)) :
    keysOf (l ++ l₀) = keysOf l ++ keysOf l₀ := by
  simp [keysOf]

theorem inserts_nil (c : β → β → β) (m : List (α × β)) : inserts c m [] = m :=
  rfl

theorem inserts_cons (c : β → β → β) (m : List (α × β)) (k : α) (v : β)
    (ps : List (α × β)) :
    inserts c m ((k, v) :: ps) = inserts c (bump c m k v) ps :=
  rfl

theorem inserts_append (c : β → β → β) (m : List (α × β))
    (ps qs : List (α × β)) :
    inserts c m (ps ++ qs) = inserts c (inserts c m ps) qs := by
  simp [inserts, List.foldl_append]

theorem mem_keysOf_bump (c : β → β → β) (m : List (α × β)) (k : α) (v : β)
    (a : α) : a ∈ keysOf (bump c m k v) ↔ a ∈ keysOf m ∨ a = k := by
  induction m with
  | nil => simp [bump, keysOf]
  | cons p rest ih =>
    obtain ⟨k₀, v₀⟩ := p
    by_cases h : k = k₀
    · subst h
      simp [bump, keysOf_cons]
      tauto
    · simp [bump, h, keysOf_cons, ih]
      tauto

theorem nodup_keysOf_bump (c : β → β → β) (m : List (α × β)) (k : α) (v : β)
    (h : (keysOf m).Nodup) : (keysOf (bump c m k v)).Nodup := by
  induction m with
  | nil => simp [bump, keysOf]
  | cons p rest ih =>
    obtain ⟨k₀, v₀⟩ := p
    rw [keysOf_cons, List.nodup_cons] at h
    by_cases hk : k = k₀
    · subst hk
      simpa [bump, keysOf_cons, List.nodup_cons] using h
    · simp only [bump, if_neg hk, keysOf_cons, List.nodup_cons]
      refine ⟨fun hmem => ?_, ih h.2⟩
      rcases (mem_keysOf_bump c rest k v k₀).mp hmem with hmem | hmem
      · exact h.1 hmem
      · exact hk hmem.symm

theorem nodup_keysOf_inserts (c : β → β → β) (m : List (α × β))
    (ps : List (α × β)) (h : (keysOf m).Nodup) :
    (keysOf (inserts c m ps)).Nodup := by
  induction ps generalizing m with
  | nil => exact h
  | cons p ps ih =>
    obtain ⟨k, v⟩ := p
    rw [inserts_cons]
    exact ih _ (nodup_keysOf_bump c m k v h)

theorem mem_keysOf_inserts (c : β → β → β) (m : List (α × β))
    (ps : List (α × β)) (a : α) :
    a ∈ keysOf (inserts c m ps) ↔ a ∈ keysOf m ∨ a ∈ keysOf ps := by
  induction ps generalizing m with
  | nil => simp [inserts, keysOf]
  | cons p ps ih =>
    obtain ⟨k, v⟩ := p
    rw [inserts_cons, ih, mem_keysOf_bump, keysOf_cons, List.mem_cons]
    tauto

theorem alookup_bump (c : β → β → β) (m : List (α × β)) (k : α) (v : β)
    (a : α) :
    alookup (bump c m k v) a =
      if a = k then some ((alookup m k).elim v (fun u => c u v))
      else alookup m a := by
  induction m with
  | nil =>
    simp only [bump, alookup]
    by_cases h : a = k <;> simp [h]
  | cons p rest ih =>
    obtain ⟨k₀, v₀⟩ := p
    by_cases hk : k = k₀
    · subst hk
      simp only [bump, if_pos rfl, alookup]
      by_cases ha : a = k <;> simp [ha, alookup]
    · simp only [bump, if_neg hk, alookup]
      by_cases ha : a = k₀
      · subst ha
        have h₁ : ¬ a = k := fun hh => hk hh.symm
        simp [alookup, h₁, hk]
      · simp [alookup, ha, hk, ih]

theorem alookup_inserts (c : β → β → β) (m : List (α × β))
    (ps : List (α × β)) (a : α) :
    alookup (inserts c m ps) a = collectFrom c a (alookup m a) ps := by
  induction ps generalizing m with
  | nil => rfl
  | cons p ps ih =>
    obtain ⟨k, v⟩ := p
    rw [inserts_cons, ih]
    by_cases h : a = k
    · subst h
      simp [collectFrom, alookup_bump, ocomb]
    · have hk : ¬ k = a := fun hh => h hh.symm
      simp [collectFrom, alookup_bump, h, hk]

theorem collectFrom_eq_foldVals (c : β → β → β) (a : α) (o : Option β)
    (ps : List (α × β)) :
    collectFrom c a o ps =
      foldVals c o ((ps.filter (fun p => p.1 = a)).map Prod.snd) := by
  induction ps generalizing o with
  | nil => rfl
  | cons p ps ih =>
    obtain ⟨k, v⟩ := p
    by_cases h : k = a
    · simp only [collectFrom, if_pos h, List.filter_cons,
        decide_eq_true_eq, List.map_cons, foldVals]
      exact ih _
    · simp only [collectFrom, if_neg h, List.filter_cons,
        decide_eq_true_eq]
      exact ih o

theorem collectFrom_of_not_mem (c : β → β → β) (a : α) (o : Option β)
    (ps : List (α × β)) (h : a ∉ keysOf ps) : collectFrom c a o ps = o := by
  induction ps generalizing o with
  | nil => rfl
  | cons p ps ih =>
    obtain ⟨k, v⟩ := p
    rw [keysOf_cons, List.mem_cons] at h
    push_neg at h
    simp only [collectFrom, if_neg (fun hh : k = a => h.1 hh.symm)]
    exact ih o h.2

theorem collectFrom_nodup (c : β → β → β) (a : α) (o : Option β)
    (ps : List (α × β)) (h : (keysOf ps).Nodup) :
    collectFrom c a o ps = (alookup ps a).elim o (ocomb c o) := by
  induction ps generalizing o with
  | nil => rfl
  | cons p ps ih =>
    obtain ⟨k, v⟩ := p
    rw [keysOf_cons, List.nodup_cons] at h
    by_cases ha : a = k
    · subst ha
      simp only [collectFrom, if_pos rfl, alookup, if_pos rfl]
      rw [collectFrom_of_not_mem c a _ ps h.1]
      simp
    · have hk : ¬ k = a := fun hh => ha hh.symm
      simp only [collectFrom, if_neg hk, alookup, if_neg ha]
      exact ih o h.2

theorem bump_of_not_mem (c : β → β → β) (m : List (α × β)) (k : α) (v : β)
    (h : k ∉ keysOf m) : bump c m k v = m ++ [(k, v)] := by
  induction m with
  | nil => rfl
  | cons p rest ih =>
    obtain ⟨k₀, v₀⟩ := p
    rw [keysOf_cons, List.mem_cons] at h
    push_neg at h
    simp [bump, h.1, ih h.2]

theorem inserts_of_disjoint (c : β → β → β) (m ps : List (α × β))
    (hd : ∀ k ∈ keysOf ps, k ∉ keysOf m) (hn : (keysOf ps).Nodup) :
    inserts c m ps = m ++ ps := by
  induction ps generalizing m with
  | nil => simp [inserts]
  | cons p ps ih =>
    obtain ⟨k, v⟩ := p
    rw [keysOf_cons, List.nodup_cons] at hn
    rw [inserts_cons, bump_of_not_mem c m k v (hd k (by simp [keysOf_cons]))]
    rw [ih (m ++ [(k, v)])]
    · simp
    · intro a ha hmem
      rw [keysOf_append] at hmem
      rcases List.mem_append.mp hmem with hmem | hmem
      · exact hd a (by simp [keysOf_cons, ha]) hmem
      · have : a = k := by simpa [keysOf] using hmem
        subst this
        exact hn.1 ha
    · exact hn.2

theorem inserts_nil_left (c : β → β → β) (ps : List (α × β))
    (hn : (keysOf ps).Nodup) : inserts c [] ps = ps := by
  simpa using inserts_of_disjoint c [] ps (by simp [keysOf]) hn

theorem mem_keysOf_iff_alookup (m : List (α × β)) (a : α) :
    a ∈ keysOf m ↔ (alookup m a).isSome := by
  induction m with
  | nil => simp [keysOf, alookup]
  | cons p rest ih =>
    obtain ⟨k, v⟩ := p
    by_cases h : a = k
    · subst h; simp [keysOf_cons, alookup]
    · simp [keysOf_cons, alookup, h, ih]

theorem alookup_eq_some_iff_mem (m : List (α × β)) (hn : (keysOf m).Nodup)
    (a : α) (b : β) : alookup m a = some b ↔ (a, b) ∈ m := by
  induction m with
  | nil => simp [alookup]
  | cons p rest ih =>
    obtain ⟨k, v⟩ := p
    rw [keysOf_cons, List.nodup_cons] at hn
    by_cases h : a = k
    · subst h
      constructor
      · intro hsome
        rw [show alookup ((a, v) :: rest) a = some v by simp [alookup]]
          at hsome
        cases hsome
        exact List.mem_cons_self _ _
      · intro hmem
        rcases List.mem_cons.mp hmem with heq | hmem
        · have hb : b = v := congrArg Prod.snd heq
          subst hb
          simp [alookup]
        · exact absurd
            (by simpa [keysOf] using List.mem_map_of_mem Prod.fst hmem) hn.1
    · have hne : (a, b) ≠ (k, v) := fun hh => h (congrArg Prod.fst hh)
      simp only [alookup, if_neg h, List.mem_cons]
      rw [ih hn.2]
      exact ⟨Or.inr, fun hh => hh.resolve_left hne⟩

/-- Two association lists with duplicate-free keys and identical lookups are
permutations of each other. -/
theorem assoc_perm_of_alookup_eq (l₁ l₂ : List (α × β))
    (h₁ : (keysOf l₁).Nodup) (h₂ : (keysOf l₂).Nodup)
    (h : ∀ a, alookup l₁ a = alookup l₂ a) : l₁.Perm l₂ := by
  have n₁ : l₁.Nodup := List.Nodup.of_map Prod.fst h₁
  have n₂ : l₂.Nodup := List.Nodup.of_map Prod.fst h₂
  rw [List.perm_ext_iff_of_nodup n₁ n₂]
  intro p
  obtain ⟨a, b⟩ := p
  rw [← alookup_eq_some_iff_mem l₁ h₁ a b, ← alookup_eq_some_iff_mem l₂ h₂ a b,
    h a]

end AssocMap

section AssocMapAssoc

variable {α β : Type} [DecidableEq α]
variable {c : β → β → β}

theorem bump_bump_same (hc : ∀ x y z, c (c x y) z = c x (c y z))
    (m : List (α × β)) (k : α) (v w : β) :
    bump c (bump c m k v) k w = bump c m k (c v w) := by
  induction m with
  | nil => simp [bump, hc]
  | cons p rest ih =>
    obtain ⟨k₀, v₀⟩ := p
    by_cases h : k = k₀
    · subst h; simp [bump, hc]
    · simp [bump, h, ih]

theorem bump_bump_ne_of_mem (m : List (α × β)) {k a : α} (h : k ≠ a)
    (hm : k ∈ keysOf m ∨ a ∈ keysOf m) (v w : β) :
    bump c (bump c m k v) a w = bump c (bump c m a w) k v := by
  induction m with
  | nil => simp [keysOf] at hm
  | cons p rest ih =>
    obtain ⟨k₀, v₀⟩ := p
    by_cases hk : k = k₀
    · subst hk
      simp [bump, Ne.symm h, h]
    · by_cases ha : a = k₀
      · subst ha; simp [bump, hk, h]
      · have hm₀ : k ∈ keysOf rest ∨ a ∈ keysOf rest := by
          rcases hm with hm | hm
          · rw [keysOf_cons, List.mem_cons] at hm
            exact Or.inl (hm.resolve_left hk)
          · rw [keysOf_cons, List.mem_cons] at hm
            exact Or.inr (hm.resolve_left ha)
        simp [bump, hk, ha, ih hm₀]

theorem bump_inserts_of_mem (m ps : List (α × β)) {k : α}
    (hmem : k ∈ keysOf m) (h : k ∉ keysOf ps) (v : β) :
    bump c (inserts c m ps) k v = inserts c (bump c m k v) ps := by
  induction ps generalizing m with
  | nil => rfl
  | cons p ps ih =>
    obtain ⟨k₀, v₀⟩ := p
    rw [keysOf_cons, List.mem_cons] at h
    push_neg at h
    rw [inserts_cons, inserts_cons,
      ih _ ((mem_keysOf_bump c m k₀ v₀ k).mpr (Or.inl hmem)) h.2,
      bump_bump_ne_of_mem m (Ne.symm h.1) (Or.inr hmem)]

theorem inserts_bump (hc : ∀ x y z, c (c x y) z = c x (c y z))
    (m₁ m₂ : List (α × β)) (k : α) (v : β)
    (hn : (keysOf m₂).Nodup) :
    inserts c m₁ (bump c m₂ k v) = bump c (inserts c m₁ m₂) k v := by
  induction m₂ generalizing m₁ with
  | nil => rfl
  | cons p rest ih =>
    obtain ⟨k₂, u₂⟩ := p
    rw [keysOf_cons, List.nodup_cons] at hn
    by_cases h : k = k₂
    · subst h
      rw [show bump c ((k, u₂) :: rest) k v = (k, c u₂ v) :: rest by
        simp [bump]]
      rw [inserts_cons, inserts_cons,
        bump_inserts_of_mem _ _ ((mem_keysOf_bump c m₁ k u₂ k).mpr
          (Or.inr rfl)) hn.1, bump_bump_same hc]
    · rw [show bump c ((k₂, u₂) :: rest) k v
          = (k₂, u₂) :: bump c rest k v by simp [bump, h]]
      rw [inserts_cons, inserts_cons, ih _ hn.2]

theorem inserts_inserts (hc : ∀ x y z, c (c x y) z = c x (c y z))
    (m₁ m₂ qs : List (α × β)) (hn : (keysOf m₂).Nodup) :
    inserts c m₁ (inserts c m₂ qs) = inserts c (inserts c m₁ m₂) qs := by
  induction qs generalizing m₂ with
  | nil => rfl
  | cons q qs ih =>
    obtain ⟨k, v⟩ := q
    rw [inserts_cons, inserts_cons,
      ih (bump c m₂ k v) (nodup_keysOf_bump c m₂ k v hn),
      inserts_bump hc _ _ _ _ hn]

end AssocMapAssoc

/-! ### The basic combiner statistics generator

Modelled from the spec: `stats_impl.py` and the built-in generators
(`basic_stats_generator`, top-k / uniques, semantic domains) are not under
`src/`; sections 3, 4.2 and 4.3 of the spec describe their accumulator as
per-feature partial state updated by `add_input`, merged across partitions,
and converted to a statistics proto by `extract_output`.  The accumulator
below keeps, per feature, the observed values and the per-example value
counts; all statistics are recomputed from the merged state at extraction
time (spec section 4.2: "recomputed from scratch at extraction"). -/

structure FeatAcc where
  values : List Value
  cnts : List Nat
  deriving Repr, DecidableEq

def FeatAcc.comb (x y : FeatAcc) : FeatAcc :=
  ⟨x.values ++ y.values, x.cnts ++ y.cnts⟩

theorem FeatAcc.comb_assoc (x y z : FeatAcc) :
    FeatAcc.comb (FeatAcc.comb x y) z = FeatAcc.comb x (FeatAcc.comb y z) := by
  simp [FeatAcc.comb]

@[ext]
structure BasicAcc where
  numExamples : Nat
  feats : List (FeatureName × FeatAcc)
  deriving Repr, DecidableEq

/-- The per-feature contributions of one example. -/
def featEntries (e : Example) : List (FeatureName × FeatAcc) :=
  e.map (fun p => (p.1, ⟨p.2, [p.2.length]⟩))

/-- `create_accumulator` of the basic combiner generator: fresh empty state. -/
def create_accumulator : BasicAcc := ⟨0, []⟩

def addExample (acc : BasicAcc) (e : Example) : BasicAcc :=
  ⟨acc.numExamples + 1, inserts FeatAcc.comb acc.feats (featEntries e)⟩

/-- `add_input` of the basic combiner generator: fold one batch of examples
into the accumulator. -/
def add_input (acc : BasicAcc) (batch : List Example) : BasicAcc :=
  batch.foldl addExample acc

def merge_two (a b : BasicAcc) : BasicAcc :=
  ⟨a.numExamples + b.numExamples, inserts FeatAcc.comb a.feats b.feats⟩

/-- `merge_accumulators` of the basic combiner generator. -/
def merge_accumulators (accs : List BasicAcc) : BasicAcc :=
  accs.foldl merge_two create_accumulator

theorem add_input_append (a : BasicAcc) (es fs : List Example) :
    add_input a (es ++ fs) = add_input (add_input a es) fs := by
  simp [add_input, List.foldl_append]

theorem add_input_numExamples (a : BasicAcc) (es : List Example) :
    (add_input a es).numExamples = a.numExamples + es.length := by
  induction es generalizing a with
  | nil => rfl
  | cons e es ih =>
    rw [show add_input a (e :: es) = add_input (addExample a e) es from rfl,
      ih]
    simp [addExample]
    omega

theorem add_input_feats (a : BasicAcc) (es : List Example) :
    (add_input a es).feats =
      inserts FeatAcc.comb a.feats (es.flatMap featEntries) := by
  induction es generalizing a with
  | nil => rfl
  | cons e es ih =>
    rw [show add_input a (e :: es) = add_input (addExample a e) es from rfl,
      ih, List.flatMap_cons, inserts_append]
    rfl

theorem nodup_feats_add_input (es : List Example) :
    (keysOf (add_input create_accumulator es).feats).Nodup := by
  rw [add_input_feats]
  exact nodup_keysOf_inserts _ _ _ (by simp [create_accumulator, keysOf])

theorem merge_two_add_input (a : BasicAcc) (es : List Example) :
    merge_two a (add_input create_accumulator es) = add_input a es := by
  ext1
  · simp [merge_two, add_input_numExamples, create_accumulator]
  · show (inserts FeatAcc.comb a.feats (add_input create_accumulator es).feats)
      = (add_input a es).feats
    rw [add_input_feats, add_input_feats,
      show create_accumulator.feats = [] from rfl,
      inserts_inserts FeatAcc.comb_assoc _ _ _ (by simp [keysOf]),
      inserts_nil]

theorem foldl_merge_two (a : BasicAcc) (groups : List (List Example)) :
    (groups.map (add_input create_accumulator)).foldl merge_two a =
      add_input a groups.flatten := by
  induction groups generalizing a with
  | nil => rfl
  | cons g gs ih =>
    rw [List.map_cons, List.foldl_cons, merge_two_add_input, ih,
      List.flatten_cons, ← add_input_append]

/-- Merging per-group partial accumulators equals sequentially adding all the
underlying batches to one fresh accumulator — the spec's mergeability
requirement, proved for the modelled basic generator. -/
theorem merge_accumulators_partition (groups : List (List Example)) :
    merge_accumulators (groups.map (add_input create_accumulator)) =
      add_input create_accumulator groups.flatten :=
  foldl_merge_two create_accumulator groups

/-! ### Statistics protos

A structural model of the slice of `statistics_pb2` that the claims and the
test vectors exercise.  Proto field presence is modelled with `Option`;
feature records are keyed by feature name. -/

inductive CustomStat where
  | strStat (statName : String) (val : String)
  | numStat (statName : String) (val : ℚ)
  deriving Repr, DecidableEq

def CustomStat.nameOf : CustomStat → String
  | .strStat n _ => n
  | .numStat n _ => n

structure CommonStatsProto where
  num_non_missing : Option Nat
  num_missing : Option Nat
  min_num_values : Option Nat
  max_num_values : Option Nat
  tot_num_values : Option Nat
  avg_num_values : Option ℚ
  deriving Repr, DecidableEq

structure StringStatsProto where
  common_stats : Option CommonStatsProto
  unique : Option Nat
  top_values : List (Value × Nat)
  avg_length : Option ℚ
  rank_histogram : List (Nat × Value × Nat)
  deriving Repr, DecidableEq

structure FeatureStatsProto where
  ftype : Option String
  string_stats : Option StringStatsProto
  custom_stats : List CustomStat
  deriving Repr, DecidableEq

structure DatasetFeatureStatistics where
  name : Option String
  num_examples : Option Nat
  features : List (FeatureName × FeatureStatsProto)
  deriving Repr, DecidableEq

/-- Proto singular-field merge: the later contribution overwrites when set. -/
def orElseScalar {γ : Type} (a b : Option γ) : Option γ :=
  match b with
  | none => a
  | some y => some y

/-- Proto message-field merge: recursively union when both are set. -/
def unionMsg {γ : Type} (f : γ → γ → γ) (a b : Option γ) : Option γ :=
  match a, b with
  | none, y => y
  | some x, none => some x
  | some x, some y => some (f x y)

def mergeCommonStats (x y : CommonStatsProto) : CommonStatsProto :=
  ⟨orElseScalar x.num_non_missing y.num_non_missing,
   orElseScalar x.num_missing y.num_missing,
   orElseScalar x.min_num_values y.min_num_values,
   orElseScalar x.max_num_values y.max_num_values,
   orElseScalar x.tot_num_values y.tot_num_values,
   orElseScalar x.avg_num_values y.avg_num_values⟩

def mergeStringStats (x y : StringStatsProto) : StringStatsProto :=
  ⟨unionMsg mergeCommonStats x.common_stats y.common_stats,
   orElseScalar x.unique y.unique,
   x.top_values ++ y.top_values,
   orElseScalar x.avg_length y.avg_length,
   x.rank_histogram ++ y.rank_histogram⟩

def mergeFeatureStats (x y : FeatureStatsProto) : FeatureStatsProto :=
  ⟨orElseScalar x.ftype y.ftype,
   unionMsg mergeStringStats x.string_stats y.string_stats,
   x.custom_stats ++ y.custom_stats⟩

def emptyDatasetStats : DatasetFeatureStatistics := ⟨none, none, []⟩

def mergeTwoDatasets (x y : DatasetFeatureStatistics) :
    DatasetFeatureStatistics :=
  ⟨orElseScalar x.name y.name,
   orElseScalar x.num_examples y.num_examples,
   inserts mergeFeatureStats x.features y.features⟩

/-- Model of `stats_impl._merge_dataset_feature_stats_protos`: merge the
per-generator contributions with proto field-union semantics, grouping
feature records by feature name. -/
def merge_dataset_feature_stats_protos (ps : List DatasetFeatureStatistics) :
    DatasetFeatureStatistics :=
  ps.foldl mergeTwoDatasets emptyDatasetStats

/-! ### Extraction -/

/-- Lexicographic comparison on character lists (an executable total order on
values; Lean's library string order is not used because its instances are
opaque to kernel evaluation). -/
def charListLe : List Char → List Char → Bool
  | [], _ => true
  | _ :: _, [] => false
  | c :: cs, d :: ds =>
    if c < d then true else if d < c then false else charListLe cs ds

theorem charEq_of_not_lt {c d : Char} (h1 : ¬ c < d) (h2 : ¬ d < c) : c = d :=
  le_antisymm (le_of_not_lt h2) (le_of_not_lt h1)

theorem charListLe_refl (l : List Char) : charListLe l l = true := by
  induction l with
  | nil => rfl
  | cons c cs ih => simp [charListLe, lt_irrefl, ih]

theorem charListLe_total (l₁ l₂ : List Char) :
    charListLe l₁ l₂ = true ∨ charListLe l₂ l₁ = true := by
  induction l₁ generalizing l₂ with
  | nil => exact Or.inl rfl
  | cons c cs ih =>
    cases l₂ with
    | nil => exact Or.inr rfl
    | cons d ds =>
      by_cases h1 : c < d
      · exact Or.inl (by simp [charListLe, h1])
      · by_cases h2 : d < c
        · exact Or.inr (by simp [charListLe, h2])
        · have hcd : c = d := charEq_of_not_lt h1 h2
          subst hcd
          rcases ih ds with h | h
          · exact Or.inl (by simp [charListLe, lt_irrefl, h])
          · exact Or.inr (by simp [charListLe, lt_irrefl, h])

theorem charListLe_antisymm {l₁ l₂ : List Char}
    (h1 : charListLe l₁ l₂ = true) (h2 : charListLe l₂ l₁ = true) :
    l₁ = l₂ := by
  induction l₁ generalizing l₂ with
  | nil =>
    cases l₂ with
    | nil => rfl
    | cons d ds => exact absurd h2 (by simp [charListLe])
  | cons c cs ih =>
    cases l₂ with
    | nil => exact absurd h1 (by simp [charListLe])
    | cons d ds =>
      by_cases hc : c < d
      · simp [charListLe, hc, lt_asymm hc] at h2
      · by_cases hd : d < c
        · simp [charListLe, hc, hd] at h1
        · have hcd : c = d := charEq_of_not_lt hc hd
          subst hcd
          have h1₀ : charListLe cs ds = true := by
            simpa [charListLe, lt_irrefl] using h1
          have h2₀ : charListLe ds cs = true := by
            simpa [charListLe, lt_irrefl] using h2
          rw [ih h1₀ h2₀]

theorem charListLe_trans {l₁ l₂ l₃ : List Char}
    (h1 : charListLe l₁ l₂ = true) (h2 : charListLe l₂ l₃ = true) :
    charListLe l₁ l₃ = true := by
  induction l₁ generalizing l₂ l₃ with
  | nil => rfl
  | cons c cs ih =>
    cases l₂ with
    | nil => exact absurd h1 (by simp [charListLe])
    | cons d ds =>
      cases l₃ with
      | nil => exact absurd h2 (by simp [charListLe])
      | cons e es =>
        by_cases hcd : c < d
        · by_cases hde : d < e
          · simp [charListLe, lt_trans hcd hde]
          · by_cases hed : e < d
            · simp [charListLe, hde, hed] at h2
            · have hde₀ : d = e := charEq_of_not_lt hde hed
              subst hde₀
              simp [charListLe, hcd]
        · by_cases hdc : d < c
          · simp [charListLe, hcd, hdc] at h1
          · have hcd₀ : c = d := charEq_of_not_lt hcd hdc
            subst hcd₀
            have h1₀ : charListLe cs ds = true := by
              simpa [charListLe, lt_irrefl] using h1
            by_cases hce : c < e
            · simp [charListLe, hce]
            · by_cases hec : e < c
              · simp [charListLe, hce, hec] at h2
              · have hce₀ : c = e := charEq_of_not_lt hce hec
                subst hce₀
                have h2₀ : charListLe ds es = true := by
                  simpa [charListLe, lt_irrefl] using h2
                simpa [charListLe, lt_irrefl] using ih h1₀ h2₀

/-- Executable total order on values. -/
def valLe (v w : Value) : Bool := charListLe v.data w.data

theorem valLe_refl (v : Value) : valLe v v = true := charListLe_refl _

theorem valLe_total (v w : Value) : valLe v w = true ∨ valLe w v = true :=
  charListLe_total _ _

theorem valLe_trans {u v w : Value} (h1 : valLe u v = true)
    (h2 : valLe v w = true) : valLe u w = true :=
  charListLe_trans h1 h2

theorem valLe_antisymm {v w : Value} (h1 : valLe v w = true)
    (h2 : valLe w v = true) : v = w := by
  have hd : v.data = w.data := charListLe_antisymm h1 h2
  cases v
  cases w
  cases hd
  rfl

/-- The ranking order used by the modelled top-k / rank-histogram output:
higher frequency first; among equal frequencies the greater value first.
The value-based tie-break is translated from the expected protos in
`stats_impl_test.py` (e.g. the `schema` test case ranks "6" before "3", both
with frequency 2, and ranks "9" first among the frequency-1 values). -/
def rankRel (cnt : Value → Nat) (v w : Value) : Prop :=
  cnt w < cnt v ∨ (cnt v = cnt w ∧ valLe w v = true)

instance rankRelDecidable (cnt : Value → Nat) : DecidableRel (rankRel cnt) :=
  fun v w => by unfold rankRel; infer_instance

/-- All distinct observed values, in rank order. -/
def rankedValues (vals : List Value) : List Value :=
  List.insertionSort (rankRel (fun v => vals.count v)) vals.dedup

def sumLens (vals : List Value) : Nat := (vals.map String.length).sum

def ratDiv (a b : Nat) : ℚ := (a : ℚ) / (b : ℚ)

inductive GeneratorKind where
  | combinerStats
  | combinerFeatureStats
  | transformStats
  deriving Repr, DecidableEq

/-- A user-supplied generator.  A combiner-style custom generator is modelled
by the proto it extracts (the valid custom generator in the source tests is
exactly of this state-independent shape); a transform-style generator's Beam
PTransform itself is beyond the shallow embedding and contributes nothing
here. -/
structure CustomGenerator where
  gname : String
  kind : GeneratorKind
  output : DatasetFeatureStatistics
  deriving Repr, DecidableEq

/-- Model of `stats_options.StatsOptions`, restricted to the options that the
claims exercise. -/
structure StatsOptions where
  num_top_values : Nat
  num_rank_histogram_buckets : Nat
  enable_semantic_domain_stats : Bool
  semantic_threshold : ℚ
  slice_features : List FeatureName
  generators : List CustomGenerator
  deriving Repr, DecidableEq

/-- Per-feature extraction of the basic (common + string) statistics. -/
def extractFeatureStats (opts : StatsOptions) (numEx : Nat) (fa : FeatAcc) :
    FeatureStatsProto :=
  let sortedCnts := List.insertionSort (fun m n : Nat => m ≤ n) fa.cnts
  let ranked := rankedValues fa.values
  ⟨none,
   some ⟨some ⟨some fa.cnts.length, some (numEx - fa.cnts.length),
       sortedCnts.head?, sortedCnts.getLast?, some fa.values.length,
       some (ratDiv fa.values.length fa.cnts.length)⟩,
     some ranked.length,
     (ranked.take opts.num_top_values).map (fun v => (v, fa.values.count v)),
     some (ratDiv (sumLens fa.values) fa.values.length),
     ((ranked.take opts.num_rank_histogram_buckets).enum).map
       (fun p => (p.1, p.2, fa.values.count p.2))⟩,
   []⟩

/-- Natural-language heuristic, modelled from the spec (section 4.4): a value
is "natural" when it holds multiple whitespace-separated tokens. -/
def isNaturalText (s : String) : Bool := s.data.any (fun ch => ch = ' ')

def natLangMatchRate (vals : List Value) : ℚ :=
  ratDiv (vals.countP isNaturalText) vals.length

/-- Minimum example count before semantic-domain classification fires (spec
section 4.4; the source test generates exactly 100 examples "to pass
threshold for semantic domains"). -/
def minSemanticExamples : Nat := 100

def natLangCustomStats (t : ℚ) (numEx : Nat) (vals : List Value) :
    List CustomStat :=
  if minSemanticExamples ≤ numEx ∧ t ≤ natLangMatchRate vals then
    [CustomStat.strStat "domain_info" "natural_language_domain \x7b\x7d",
     CustomStat.numStat "natural_language_match_rate" (natLangMatchRate vals)]
  else []

/-- The semantic-domain generator's per-feature record. -/
def semBody (opts : StatsOptions) (numEx : Nat) (fa : FeatAcc) :
    FeatureStatsProto :=
  ⟨none, none, natLangCustomStats opts.semantic_threshold numEx fa.values⟩

/-- The feature records contributed by the semantic-domain generator
(natural-language detector), empty when disabled. -/
def semanticFeatures (opts : StatsOptions) (a : BasicAcc) :
    List (FeatureName × FeatureStatsProto) :=
  if opts.enable_semantic_domain_stats then
    a.feats.map (fun p => (p.1, semBody opts a.numExamples p.2))
  else []

/-- The semantic-domain generator's contribution (natural-language detector;
enabled by `StatsOptions.enable_semantic_domain_stats`). -/
def semanticDomainProto (opts : StatsOptions) (a : BasicAcc) :
    DatasetFeatureStatistics :=
  ⟨none, none, semanticFeatures opts a⟩

def customGeneratorProtos (opts : StatsOptions) :
    List DatasetFeatureStatistics :=
  (opts.generators.filter
    (fun g => g.kind ≠ GeneratorKind.transformStats)).map (fun g => g.output)

/-- The per-feature records of the basic generator's contribution. -/
def builtinFeatures (opts : StatsOptions) (a : BasicAcc) :
    List (FeatureName × FeatureStatsProto) :=
  a.feats.map (fun p => (p.1, extractFeatureStats opts a.numExamples p.2))

def builtinStatsProto (opts : StatsOptions) (nm : Option String)
    (a : BasicAcc) : DatasetFeatureStatistics :=
  ⟨nm, some a.numExamples, builtinFeatures opts a⟩

/-- `extract_output`: convert the merged accumulator into one
dataset-statistics record, merging the per-generator contributions with
`merge_dataset_feature_stats_protos`. -/
def extract_output (opts : StatsOptions) (nm : Option String) (a : BasicAcc) :
    DatasetFeatureStatistics :=
  merge_dataset_feature_stats_protos
    (builtinStatsProto opts nm a :: semanticDomainProto opts a ::
      customGeneratorProtos opts)

/-! ### Slicing and the pipeline drivers -/

def valuesOfFeature (f : FeatureName) (e : Example) : List Value :=
  (e.filter (fun p => p.1 = f)).flatMap Prod.snd

/-- Feature-value slicing (`slicing_util.get_feature_value_slicer`): one slice
key per distinct value of each configured slice feature. -/
def sliceKeysOf (opts : StatsOptions) (e : Example) : List String :=
  opts.slice_features.flatMap (fun f =>
    (valuesOfFeature f e).dedup.map (fun v => f ++ "_" ++ v))

def processSlice (opts : StatsOptions) (nm : Option String)
    (batches : List (List Example)) : DatasetFeatureStatistics :=
  extract_output opts nm
    (merge_accumulators (batches.map (add_input create_accumulator)))

/-- Model of `stats_impl.GenerateStatisticsImpl` over a batched input: slice,
accumulate per batch, merge the partial accumulators, extract, and order the
result collection with the "All Examples" slice first followed by the slice
keys in first-observed order. -/
def GenerateStatisticsImpl (opts : StatsOptions)
    (batches : List (List Example)) : List DatasetFeatureStatistics :=
  if opts.slice_features.isEmpty then [processSlice opts none batches]
  else
    processSlice opts (some "All Examples") batches ::
      ((batches.flatten.flatMap (sliceKeysOf opts)).dedup).map (fun k =>
        processSlice opts (some k) (batches.map (fun b =>
          b.filter (fun e => k ∈ sliceKeysOf opts e))))

/-- Model of `stats_impl.generate_statistics_in_memory`: validate the
configured generators (a transform-style generator is a `TypeError`, as pinned
by `test_generate_statistics_in_memory_invalid_custom_generator`), then fold
all examples sequentially into one accumulator and extract. -/
def generate_statistics_in_memory (examples : List Example)
    (opts : StatsOptions) : Except String (List DatasetFeatureStatistics) :=
  if opts.generators.any (fun g => g.kind = GeneratorKind.transformStats) then
    Except.error "Statistics generator must be a CombinerStatsGenerator or CombinerFeatureStatsGenerator, found object of type TransformStatsGenerator."
  else
    Except.ok [extract_output opts none (add_input create_accumulator examples)]

def defaultStatsOptions : StatsOptions := ⟨2, 3, false, 4/5, [], []⟩

/-! ### The abstract combiner protocol (claim C1) -/

/-- The accumulator protocol of `CombinerStatsGeneratorBase` and
`CombinerFeatureStatsGenerator`, generic over the accumulator type `β`, the
output type `γ` and the batch type `δ` (a full example batch for
dataset-level generators, a single feature column for feature-level ones). -/
structure ModelCombinerGenerator (β γ δ : Type) where
  create_accumulator : β
  add_input : β → δ → β
  merge_two : β → β → β
  extract_output : β → γ

/-- Fold a list of batches into a fresh accumulator. -/
def ModelCombinerGenerator.accumulate {β γ δ : Type}
    (G : ModelCombinerGenerator β γ δ) (bs : List δ) : β :=
  bs.foldl G.add_input G.create_accumulator

/-- `merge_accumulators`: combine any number of accumulators. -/
def ModelCombinerGenerator.merge_accumulators {β γ δ : Type}
    (G : ModelCombinerGenerator β γ δ) (accs : List β) : β :=
  accs.foldl G.merge_two G.create_accumulator

/-- Claim C1: for a combiner generator satisfying the spec's mergeability
contract (merging an accumulator built from some batches into another
accumulator equals adding those batches to it; extraction invariant under
reordering of the underlying batches), accumulating per group, merging the
per-group accumulators and extracting yields exactly the sequential-fold
result, and the output is independent of the grouping and of the merge
order.  (In this pure functional embedding `merge_accumulators` cannot
mutate its input accumulators.) -/
theorem claim_c1_merge_partition_invariance {β γ δ : Type}
    (G : ModelCombinerGenerator β γ δ)
    (hmerge : ∀ (a : β) (bs : List δ),
      G.merge_two a (G.accumulate bs) = bs.foldl G.add_input a)
    (hperm : ∀ bs bs₀ : List δ, bs.Perm bs₀ →
      G.extract_output (G.accumulate bs) =
        G.extract_output (G.accumulate bs₀))
    (groups groups₀ : List (List δ))
    (hg : groups.flatten.Perm groups₀.flatten) :
    G.extract_output (G.merge_accumulators (groups.map G.accumulate)) =
      G.extract_output (G.accumulate groups.flatten) ∧
    G.extract_output (G.merge_accumulators (groups.map G.accumulate)) =
      G.extract_output (G.merge_accumulators (groups₀.map G.accumulate)) := by
  have key : ∀ (gs : List (List δ)) (a : β),
      (gs.map G.accumulate).foldl G.merge_two a =
        gs.flatten.foldl G.add_input a := by
    intro gs
    induction gs with
    | nil => intro a; rfl
    | cons g gs ih =>
      intro a
      rw [List.map_cons, List.foldl_cons, hmerge, ih, List.flatten_cons,
        List.foldl_append]
  have h1 : ∀ gs : List (List δ),
      G.merge_accumulators (gs.map G.accumulate) = G.accumulate gs.flatten := by
    intro gs
    show (gs.map G.accumulate).foldl G.merge_two G.create_accumulator = _
    rw [key]
    rfl
  refine ⟨by rw [h1], ?_⟩
  rw [h1, h1]
  exact hperm _ _ hg

/-- The `_ValueCounter` generator defined in `stats_impl_test.py`: the
accumulator is a number, `add_input` adds the total count of values in the
non-null column entries, `merge_accumulators` sums. -/
def valueCounterGenerator :
    ModelCombinerGenerator Nat (List CustomStat) (List (Option (List Value))) :=
  ⟨0,
   fun acc col => acc + ((col.filterMap id).map List.length).sum,
   fun a b => a + b,
   fun acc => [CustomStat.numStat "_ValueCounter" (acc : ℚ)]⟩

theorem valueCounter_foldl (a : Nat)
    (bs : List (List (Option (List Value)))) :
    bs.foldl valueCounterGenerator.add_input a =
      a + (bs.map (fun col => ((col.filterMap id).map List.length).sum)).sum := by
  induction bs generalizing a with
  | nil => simp
  | cons b bs ih =>
    rw [List.foldl_cons, ih]
    simp [valueCounterGenerator]
    omega

theorem valueCounter_mergeable (a : Nat)
    (bs : List (List (Option (List Value)))) :
    valueCounterGenerator.merge_two a (valueCounterGenerator.accumulate bs) =
      bs.foldl valueCounterGenerator.add_input a := by
  rw [ModelCombinerGenerator.accumulate, valueCounter_foldl,
    valueCounter_foldl]
  simp [valueCounterGenerator]

theorem valueCounter_extract_perm (bs bs₀ : List (List (Option (List Value))))
    (h : bs.Perm bs₀) :
    valueCounterGenerator.extract_output (valueCounterGenerator.accumulate bs) =
      valueCounterGenerator.extract_output
        (valueCounterGenerator.accumulate bs₀) := by
  rw [ModelCombinerGenerator.accumulate, ModelCombinerGenerator.accumulate,
    valueCounter_foldl, valueCounter_foldl, (h.map _).sum_eq]

def c1batch1 : List (Option (List Value)) := [some ["a", "b"], none]

def c1batch2 : List (Option (List Value)) := [some ["c"]]

def c1batch3 : List (Option (List Value)) := [none, some []]

/-- Witness for claim C1 at concrete batches, grouped two different ways. -/
theorem claim_c1_witness :
    valueCounterGenerator.extract_output
      (valueCounterGenerator.merge_accumulators
        ([[c1batch1], [c1batch2, c1batch3]].map valueCounterGenerator.accumulate)) =
      valueCounterGenerator.extract_output
        (valueCounterGenerator.accumulate [[c1batch1], [c1batch2, c1batch3]].flatten) ∧
    valueCounterGenerator.extract_output
      (valueCounterGenerator.merge_accumulators
        ([[c1batch1], [c1batch2, c1batch3]].map valueCounterGenerator.accumulate)) =
      valueCounterGenerator.extract_output
        (valueCounterGenerator.merge_accumulators
          ([[c1batch2], [c1batch3, c1batch1]].map valueCounterGenerator.accumulate)) :=
  claim_c1_merge_partition_invariance valueCounterGenerator
    valueCounter_mergeable valueCounter_extract_perm
    [[c1batch1], [c1batch2, c1batch3]] [[c1batch2], [c1batch3, c1batch1]]
    (by decide)

/-! ### Claims about proto merging (C7, C10) -/

def c7proto1 : DatasetFeatureStatistics :=
  ⟨none, some 7, [("feature1", ⟨some "STRING",
    some ⟨some ⟨some 4, some 3, some 1, some 1, none, none⟩,
      none, [], none, []⟩, []⟩)]⟩

def c7proto2 : DatasetFeatureStatistics :=
  ⟨none, none, [("feature1", ⟨some "STRING",
    some ⟨none, some 3, [], none, []⟩, []⟩)]⟩

def c7expected : DatasetFeatureStatistics :=
  ⟨none, some 7, [("feature1", ⟨some "STRING",
    some ⟨some ⟨some 4, some 3, some 1, some 1, none, none⟩,
      some 3, [], none, []⟩, []⟩)]⟩

/-- Claim C7: merging per-generator contributions that share a feature name
produces one record per feature by field union — checked on the exact protos
of `test_merge_dataset_feature_stats_protos` (a record carrying only
common stats merged with a record carrying only the unique count yields a
single record containing both), together with the general facts that custom
stats concatenate in contribution order and that a common-stats-only message
unions with a unique-only message field by field. -/
theorem claim_c7_merge_field_union :
    merge_dataset_feature_stats_protos [c7proto1, c7proto2] = c7expected ∧
    (∀ x y : FeatureStatsProto,
      (mergeFeatureStats x y).custom_stats =
        x.custom_stats ++ y.custom_stats) ∧
    (∀ (cs : CommonStatsProto) (u : Nat),
      mergeStringStats ⟨some cs, none, [], none, []⟩
          ⟨none, some u, [], none, []⟩ =
        ⟨some cs, some u, [], none, []⟩) :=
  ⟨by decide, fun x y => rfl, fun cs u => rfl⟩

/-- Claim C10: merging an empty list of contributions is defined and returns
the default dataset-statistics record, and the default record is an identity
element of the contribution merge. -/
theorem claim_c10_merge_empty_identity :
    merge_dataset_feature_stats_protos [] = emptyDatasetStats ∧
    ∀ p : DatasetFeatureStatistics, (keysOf p.features).Nodup →
      merge_dataset_feature_stats_protos [p] = p ∧
      mergeTwoDatasets emptyDatasetStats p = p ∧
      mergeTwoDatasets p emptyDatasetStats = p := by
  refine ⟨rfl, fun p hn => ?_⟩
  have h1 : mergeTwoDatasets emptyDatasetStats p = p := by
    obtain ⟨nm, ne, fs⟩ := p
    have hname : orElseScalar (none : Option String) nm = nm := by
      cases nm <;> rfl
    have hnum : orElseScalar (none : Option Nat) ne = ne := by
      cases ne <;> rfl
    have hf : inserts mergeFeatureStats [] fs = fs := inserts_nil_left _ fs hn
    simp [mergeTwoDatasets, emptyDatasetStats, hname, hnum, hf]
  exact ⟨h1, h1, rfl⟩

def c10record : DatasetFeatureStatistics :=
  ⟨some "slice", some 7, [("feature1", ⟨some "STRING", none, []⟩)]⟩

/-- Witness for claim C10 at a concrete record. -/
theorem claim_c10_witness :
    merge_dataset_feature_stats_protos [c10record] = c10record ∧
    mergeTwoDatasets emptyDatasetStats c10record = c10record ∧
    mergeTwoDatasets c10record emptyDatasetStats = c10record :=
  claim_c10_merge_empty_identity.2 c10record (by decide)

/-! ### Claim C8: empty input -/

/-- Claim C8: running statistics generation on an empty list of examples
succeeds (it is not an error) and returns a result collection with exactly
one dataset-statistics record whose example count is zero and which has no
feature entries. -/
theorem claim_c8_empty_input :
    generate_statistics_in_memory [] defaultStatsOptions =
      Except.ok [⟨none, some 0, []⟩] := rfl

/-! ### Claim C9: invalid generator kind -/

/-- Claim C9: a generator whose type is not valid for the in-memory entry
point (a transform-style generator) makes the run fail with a configuration
error, raised independently of the examples — before any aggregation — and
is never silently skipped. -/
theorem claim_c9_invalid_generator (opts : StatsOptions) (es : List Example)
    (h : ∃ g ∈ opts.generators, g.kind = GeneratorKind.transformStats) :
    (∃ msg, generate_statistics_in_memory es opts = Except.error msg) ∧
    ∀ es₀ : List Example,
      generate_statistics_in_memory es opts =
        generate_statistics_in_memory es₀ opts := by
  have hany : opts.generators.any
      (fun g => g.kind = GeneratorKind.transformStats) = true := by
    rw [List.any_eq_true]
    obtain ⟨g, hg, hk⟩ := h
    exact ⟨g, hg, by simp [hk]⟩
  constructor
  · refine ⟨"Statistics generator must be a CombinerStatsGenerator or CombinerFeatureStatsGenerator, found object of type TransformStatsGenerator.", ?_⟩
    simp [generate_statistics_in_memory, hany]
  · intro es₀
    simp [generate_statistics_in_memory, hany]

def customTransformGenerator : CustomGenerator :=
  ⟨"CustomStatsGenerator", GeneratorKind.transformStats, emptyDatasetStats⟩

def invalidGeneratorOptions : StatsOptions :=
  ⟨2, 3, true, 4/5, [], [customTransformGenerator]⟩

/-- Witness for claim C9 at the concrete setup of
`test_generate_statistics_in_memory_invalid_custom_generator`. -/
theorem claim_c9_witness :
    (∃ msg, generate_statistics_in_memory [[("a", ["1.0"])]]
      invalidGeneratorOptions = Except.error msg) ∧
    ∀ es₀ : List Example,
      generate_statistics_in_memory [[("a", ["1.0"])]]
          invalidGeneratorOptions =
        generate_statistics_in_memory es₀ invalidGeneratorOptions :=
  claim_c9_invalid_generator invalidGeneratorOptions [[("a", ["1.0"])]]
    ⟨customTransformGenerator, by decide, rfl⟩

/-! ### Claim C4: the top-k tie-break -/

instance rankRelTotal (cnt : Value → Nat) : IsTotal Value (rankRel cnt) :=
  ⟨by
    intro v w
    rcases lt_trichotomy (cnt v) (cnt w) with h | h | h
    · exact Or.inr (Or.inl h)
    · rcases valLe_total w v with hle | hle
      · exact Or.inl (Or.inr ⟨h, hle⟩)
      · exact Or.inr (Or.inr ⟨h.symm, hle⟩)
    · exact Or.inl (Or.inl h)⟩

instance rankRelTrans (cnt : Value → Nat) : IsTrans Value (rankRel cnt) :=
  ⟨by
    intro u v w huv hvw
    rcases huv with h1 | ⟨h1, h1b⟩ <;> rcases hvw with h2 | ⟨h2, h2b⟩
    · exact Or.inl (h2.trans h1)
    · exact Or.inl (h2 ▸ h1)
    · exact Or.inl (h1.symm ▸ h2)
    · exact Or.inr ⟨h1.trans h2, valLe_trans h2b h1b⟩⟩

instance rankRelAntisymm (cnt : Value → Nat) : IsAntisymm Value (rankRel cnt) :=
  ⟨by
    intro v w h1 h2
    rcases h1 with h1 | ⟨h1, h1b⟩ <;> rcases h2 with h2 | ⟨h2, h2b⟩
    · exact absurd (h1.trans h2) (lt_irrefl _)
    · exact absurd h1 (h2 ▸ lt_irrefl _)
    · exact absurd h2 (h1 ▸ lt_irrefl _)
    · exact valLe_antisymm h2b h1b⟩

/-- The tie-break order described by the spec's words (claim C4): equal
frequencies are ordered by first occurrence in accumulation order.  This
definition follows the spec, to be compared with the behaviour the source
test vectors pin down. -/
def firstOccurRel (vals : List Value) (v w : Value) : Prop :=
  vals.count w < vals.count v ∨
    (vals.count v = vals.count w ∧ vals.indexOf v ≤ vals.indexOf w)

instance firstOccurRelDecidable (vals : List Value) :
    DecidableRel (firstOccurRel vals) :=
  fun v w => by unfold firstOccurRel; infer_instance

/-- Ranking with the spec's first-occurrence tie-break. -/
def specFirstOccurrenceRanked (vals : List Value) : List Value :=
  List.insertionSort (firstOccurRel vals) vals.dedup

/-- The input of the `schema` test case of `stats_impl_test.py` (feature `a`
is categorical, so its values reach the string statistics stringified). -/
def schemaExamples : List Example :=
  [[("a", ["1", "3", "5", "7"])],
   [("a", ["2", "4", "6", "8"])],
   [("a", ["0", "3", "6", "9"])]]

/-- Options of the `schema` test case: `num_top_values=2`,
`num_rank_histogram_buckets=3`. -/
def schemaStatsOptions : StatsOptions := ⟨2, 3, true, 4/5, [], []⟩

def okDatasets (r : Except String (List DatasetFeatureStatistics)) :
    List DatasetFeatureStatistics :=
  match r with
  | .ok ds => ds
  | .error _ => []

def topValuesOfFeature (ds : List DatasetFeatureStatistics)
    (f : FeatureName) : List (Value × Nat) :=
  ds.flatMap (fun d =>
    ((alookup d.features f).bind (fun b => b.string_stats)).elim []
      (fun s => s.top_values))

def rankHistogramOfFeature (ds : List DatasetFeatureStatistics)
    (f : FeatureName) : List (Nat × Value × Nat) :=
  ds.flatMap (fun d =>
    ((alookup d.features f).bind (fun b => b.string_stats)).elim []
      (fun s => s.rank_histogram))

/-- Counterexample to claim C4.  On the `schema` test input the values "3"
and "6" both have frequency 2 and "3" first occurs earlier, yet the expected
proto of the source test (lines 230-259 of `stats_impl_test.py`) ranks "6"
first (rank 0) and "3" second, and ranks "9" — the last frequency-1 value to
occur — at rank 2; the model reproduces exactly that expected output, while
the spec's first-occurrence tie-break would rank "3" before "6".  So the
tie-break is a value-based descending order, not first-occurrence order. -/
theorem claim_c4_counterexample :
    topValuesOfFeature
        (okDatasets (generate_statistics_in_memory schemaExamples
          schemaStatsOptions)) "a" = [("6", 2), ("3", 2)] ∧
    rankHistogramOfFeature
        (okDatasets (generate_statistics_in_memory schemaExamples
          schemaStatsOptions)) "a" =
      [(0, "6", 2), (1, "3", 2), (2, "9", 1)] ∧
    (specFirstOccurrenceRanked
        (schemaExamples.flatMap (valuesOfFeature "a"))).take 2 =
      ["3", "6"] ∧
    (topValuesOfFeature
        (okDatasets (generate_statistics_in_memory schemaExamples
          schemaStatsOptions)) "a").map Prod.fst ≠
      (specFirstOccurrenceRanked
        (schemaExamples.flatMap (valuesOfFeature "a"))).take 2 :=
  ⟨by decide, by decide, by decide, by decide⟩

/-- Claim C4 (amended): in the top-k / rank-histogram ranking, whenever two
distinct values have equal frequency, the lexicographically greater value is
ranked first — the tie-break is a value-based descending order, not
first-occurrence order.  (`valLe v w = false` says that `w` is strictly
smaller than `v` in the total value order.) -/
theorem claim_c4_amended_tiebreak (vals : List Value) (v w : Value)
    (hv : v ∈ vals) (hw : w ∈ vals) (hcnt : vals.count v = vals.count w)
    (hlt : valLe v w = false) :
    (rankedValues vals).indexOf v < (rankedValues vals).indexOf w := by
  have hsorted : List.Sorted (rankRel (fun x => vals.count x))
      (rankedValues vals) := List.sorted_insertionSort _ _
  have hvm : v ∈ rankedValues vals := by
    rw [rankedValues, List.mem_insertionSort, List.mem_dedup]
    exact hv
  have hwm : w ∈ rankedValues vals := by
    rw [rankedValues, List.mem_insertionSort, List.mem_dedup]
    exact hw
  have hiv : (rankedValues vals).indexOf v < (rankedValues vals).length :=
    List.indexOf_lt_length.mpr hvm
  have hiw : (rankedValues vals).indexOf w < (rankedValues vals).length :=
    List.indexOf_lt_length.mpr hwm
  by_contra hcon
  push_neg at hcon
  have hne : v ≠ w := by
    intro he
    rw [he, valLe_refl] at hlt
    exact Bool.noConfusion hlt
  have hne2 : (rankedValues vals).indexOf w ≠ (rankedValues vals).indexOf v := by
    intro he
    apply hne
    have hgv : (rankedValues vals).get ⟨(rankedValues vals).indexOf v, hiv⟩ = v :=
      List.indexOf_get hiv
    have hgw : (rankedValues vals).get ⟨(rankedValues vals).indexOf w, hiw⟩ = w :=
      List.indexOf_get hiw
    rw [← hgv, ← hgw]
    exact congrArg _ (Fin.ext he.symm)
  have hlt2 : (rankedValues vals).indexOf w < (rankedValues vals).indexOf v :=
    lt_of_le_of_ne hcon hne2
  have hrel := @List.Sorted.rel_get_of_lt _ _ _ hsorted
    ⟨(rankedValues vals).indexOf w, hiw⟩
    ⟨(rankedValues vals).indexOf v, hiv⟩ hlt2
  rw [List.indexOf_get hiw, List.indexOf_get hiv] at hrel
  rcases hrel with h | ⟨h, hle⟩
  · have h₀ : vals.count v < vals.count w := h
    rw [hcnt] at h₀
    exact absurd h₀ (lt_irrefl _)
  · rw [hlt] at hle
    exact Bool.noConfusion hle

/-- Witness for the amended claim C4 at the value multiset of the slicing
test's feature `b` (frequencies `a = 2`, `b = 2`; the source expects "b"
ranked first). -/
theorem claim_c4_amended_witness :
    (rankedValues ["a", "a", "b", "b"]).indexOf "b" <
      (rankedValues ["a", "a", "b", "b"]).indexOf "a" :=
  claim_c4_amended_tiebreak ["a", "a", "b", "b"] "b" "a"
    (by decide) (by decide) (by decide) (by decide)

/-! ### Claim C5: feature-value slicing -/

/-- The three examples of the `feature_value_slicing` test case (the numeric
feature values reach the engine as opaque values here; the slice structure
depends only on feature `b`). -/
def sliceEx1 : Example :=
  [("a", ["1.0", "2.0"]), ("b", ["a"]),
   ("c", (List.range 500).map (fun i => toString (i + 1)))]

def sliceEx2 : Example :=
  [("a", ["3.0", "4.0", "NaN", "5.0"]), ("b", ["a", "b"]),
   ("c", (List.range 750).map (fun i => toString (i + 501)))]

def sliceEx3 : Example :=
  [("a", ["1.0"]), ("b", ["b"]),
   ("c", (List.range 1750).map (fun i => toString (i + 1251)))]

def slicingExamples : List Example := [sliceEx1, sliceEx2, sliceEx3]

/-- Options of the `feature_value_slicing` test case: slice by the values of
feature `b`. -/
def slicingStatsOptions : StatsOptions := ⟨2, 2, true, 4/5, ["b"], []⟩

def slicingResult : List DatasetFeatureStatistics :=
  GenerateStatisticsImpl slicingStatsOptions [slicingExamples]

/-- Claim C5: slicing by feature `b`'s values over the three test examples
produces exactly one "All Examples" slice — first in the result collection —
plus one slice per distinct observed value of `b` (here `a` and `b`, giving
slice keys `b_a` and `b_b` in first-observed order); each slice's example
count equals the number of examples matching that slice key, and the
per-slice counts (2 + 2) exceed the total (3) because an example contributes
to every slice key it matches. -/
theorem claim_c5_feature_value_slicing :
    slicingResult.map (fun d => d.name) =
      [some "All Examples", some "b_a", some "b_b"] ∧
    (slicingExamples.flatMap (valuesOfFeature "b")).dedup = ["a", "b"] ∧
    slicingResult.map (fun d => d.num_examples) =
      [some slicingExamples.length,
       some (slicingExamples.filter
         (fun e => "b_a" ∈ sliceKeysOf slicingStatsOptions e)).length,
       some (slicingExamples.filter
         (fun e => "b_b" ∈ sliceKeysOf slicingStatsOptions e)).length] ∧
    slicingResult.map (fun d => d.num_examples) =
      [some 3, some 2, some 2] ∧
    2 + 2 > 3 :=
  ⟨by decide, by decide, by decide, by decide, by decide⟩

/-! ### Claim C3: the in-memory entry point refines the pipeline -/

/-- Claim C3: `generate_statistics_in_memory`, applied to a materialized list
of examples and options valid for the in-memory entry point, returns exactly
the result collection of the full `GenerateStatisticsImpl` pipeline run over
the same examples and options with one all-examples slice and no parallelism
(a single batch), and that collection is one dataset-statistics record. -/
theorem claim_c3_in_memory_refines_pipeline (es : List Example)
    (opts : StatsOptions)
    (h1 : ∀ g ∈ opts.generators, g.kind ≠ GeneratorKind.transformStats)
    (h2 : opts.slice_features = []) :
    generate_statistics_in_memory es opts =
      Except.ok (GenerateStatisticsImpl opts [es]) ∧
    GenerateStatisticsImpl opts [es] =
      [extract_output opts none (add_input create_accumulator es)] := by
  have hany : opts.generators.any
      (fun g => g.kind = GeneratorKind.transformStats) = false := by
    rw [List.any_eq_false]
    intro g hg
    simp [h1 g hg]
  have hpipe : GenerateStatisticsImpl opts [es] =
      [extract_output opts none (add_input create_accumulator es)] := by
    rw [GenerateStatisticsImpl, if_pos (by simp [h2])]
    simp only [processSlice]
    rw [merge_accumulators_partition [es],
      show ([es] : List (List Example)).flatten = es by simp]
  refine ⟨?_, hpipe⟩
  rw [generate_statistics_in_memory, if_neg (by simp [hany]), hpipe]

def c3examples : List Example :=
  [[("u", ["x"])], [("u", ["y"]), ("v", ["z"])]]

/-- Witness for claim C3 at concrete examples and the default options. -/
theorem claim_c3_witness :
    generate_statistics_in_memory c3examples defaultStatsOptions =
      Except.ok (GenerateStatisticsImpl defaultStatsOptions [c3examples]) ∧
    GenerateStatisticsImpl defaultStatsOptions [c3examples] =
      [extract_output defaultStatsOptions none
        (add_input create_accumulator c3examples)] :=
  claim_c3_in_memory_refines_pipeline c3examples defaultStatsOptions
    (by decide) rfl

/-! ### Claim C2: output under reordering and rebatching

Further association-map lemmas, then permutation invariance of every
per-feature statistic, leading to: two pipeline runs over the same example
multiset produce the same record up to the order of its feature records. -/

section AssocMapMore

variable {α β γ : Type} [DecidableEq α]

theorem alookup_map_value (f : β → γ) (m : List (α × β)) (k : α) :
    alookup (m.map (fun p => (p.1, f p.2))) k = (alookup m k).map f := by
  induction m with
  | nil => rfl
  | cons p rest ih =>
    obtain ⟨k₀, v₀⟩ := p
    by_cases h : k = k₀
    · subst h; simp [alookup]
    · simp [alookup, h, ih]

theorem keysOf_map_value (f : β → γ) (m : List (α × β)) :
    keysOf (m.map (fun p => (p.1, f p.2))) = keysOf m := by
  simp [keysOf]

theorem collectFrom_nodup_none (c : β → β → β) (a : α) (ps : List (α × β))
    (h : (keysOf ps).Nodup) : collectFrom c a none ps = alookup ps a := by
  rw [collectFrom_nodup c a none ps h]
  cases alookup ps a <;> simp [ocomb]

theorem alookup_foldl_inserts (c : β → β → β) (pss : List (List (α × β)))
    (m : List (α × β)) (k : α) :
    alookup (pss.foldl (inserts c) m) k =
      pss.foldl (fun o ps => collectFrom c k o ps) (alookup m k) := by
  induction pss generalizing m with
  | nil => rfl
  | cons ps pss ih =>
    rw [List.foldl_cons, ih, List.foldl_cons, alookup_inserts]

theorem nodup_keysOf_foldl_inserts (c : β → β → β)
    (pss : List (List (α × β))) (m : List (α × β))
    (h : (keysOf m).Nodup) :
    (keysOf (pss.foldl (inserts c) m)).Nodup := by
  induction pss generalizing m with
  | nil => exact h
  | cons ps pss ih =>
    rw [List.foldl_cons]
    exact ih _ (nodup_keysOf_inserts c m ps h)

end AssocMapMore

theorem foldVals_comb_some (x : FeatAcc) (L : List FeatAcc) :
    foldVals FeatAcc.comb (some x) L =
      some ⟨x.values ++ L.flatMap FeatAcc.values,
            x.cnts ++ L.flatMap FeatAcc.cnts⟩ := by
  induction L generalizing x with
  | nil => simp [foldVals]
  | cons y L ih =>
    rw [show foldVals FeatAcc.comb (some x) (y :: L)
        = foldVals FeatAcc.comb (some (FeatAcc.comb x y)) L from rfl, ih]
    simp [FeatAcc.comb, List.flatMap_cons]

theorem foldVals_comb_cons (y : FeatAcc) (L : List FeatAcc) :
    foldVals FeatAcc.comb none (y :: L) =
      some ⟨(y :: L).flatMap FeatAcc.values, (y :: L).flatMap FeatAcc.cnts⟩ := by
  rw [show foldVals FeatAcc.comb none (y :: L)
      = foldVals FeatAcc.comb (some y) L from rfl, foldVals_comb_some]
  simp [List.flatMap_cons]

/-- Lookup of a feature's partial state in the accumulator built from a list
of examples. -/
def featLookup (es : List Example) (k : FeatureName) : Option FeatAcc :=
  alookup (add_input create_accumulator es).feats k

theorem featLookup_eq (es : List Example) (k : FeatureName) :
    featLookup es k =
      foldVals FeatAcc.comb none
        (((es.flatMap featEntries).filter (fun p => p.1 = k)).map Prod.snd) := by
  rw [featLookup, add_input_feats,
    show create_accumulator.feats = [] from rfl, alookup_inserts,
    collectFrom_eq_foldVals]
  rfl

theorem featLookup_perm (es es₀ : List Example) (k : FeatureName)
    (hp : es.Perm es₀) :
    (featLookup es k = none ∧ featLookup es₀ k = none) ∨
    ∃ fa fa₀, featLookup es k = some fa ∧ featLookup es₀ k = some fa₀ ∧
      fa.values.Perm fa₀.values ∧ fa.cnts.Perm fa₀.cnts := by
  have hL : (((es.flatMap featEntries).filter (fun p => p.1 = k)).map
      Prod.snd).Perm
      (((es₀.flatMap featEntries).filter (fun p => p.1 = k)).map Prod.snd) :=
    (((hp.flatMap_right featEntries)).filter _).map _
  rw [featLookup_eq, featLookup_eq]
  cases hcase : ((es.flatMap featEntries).filter (fun p => p.1 = k)).map
      Prod.snd with
  | nil =>
    left
    rw [hcase] at hL
    rw [List.perm_nil.mp hL.symm]
    exact ⟨rfl, rfl⟩
  | cons y L =>
    right
    rw [hcase] at hL
    cases hcase₀ : ((es₀.flatMap featEntries).filter (fun p => p.1 = k)).map
        Prod.snd with
    | nil =>
      rw [hcase₀] at hL
      exact absurd (List.perm_nil.mp hL) (by simp)
    | cons z L₀ =>
      rw [hcase₀] at hL
      rw [foldVals_comb_cons, foldVals_comb_cons]
      exact ⟨_, _, rfl, rfl, hL.flatMap_right FeatAcc.values,
        hL.flatMap_right FeatAcc.cnts⟩

theorem insertionSort_nat_perm_eq (l l₀ : List Nat) (h : l.Perm l₀) :
    List.insertionSort (fun m n : Nat => m ≤ n) l =
      List.insertionSort (fun m n : Nat => m ≤ n) l₀ :=
  List.eq_of_perm_of_sorted
    ((List.perm_insertionSort _ l).trans
      (h.trans (List.perm_insertionSort _ l₀).symm))
    (List.sorted_insertionSort _ l) (List.sorted_insertionSort _ l₀)

theorem rankedValues_perm_eq (vs vs₀ : List Value) (h : vs.Perm vs₀) :
    rankedValues vs = rankedValues vs₀ := by
  have hcnt : (fun v => vs.count v) = (fun v => vs₀.count v) :=
    funext (fun v => h.count_eq v)
  rw [rankedValues, rankedValues, hcnt]
  exact List.eq_of_perm_of_sorted
    ((List.perm_insertionSort _ _).trans
      (h.dedup.trans (List.perm_insertionSort _ _).symm))
    (List.sorted_insertionSort _ _) (List.sorted_insertionSort _ _)

theorem extractFeatureStats_perm (opts : StatsOptions) (numEx : Nat)
    (fa fa₀ : FeatAcc) (hv : fa.values.Perm fa₀.values)
    (hc : fa.cnts.Perm fa₀.cnts) :
    extractFeatureStats opts numEx fa = extractFeatureStats opts numEx fa₀ := by
  unfold extractFeatureStats
  simp only [insertionSort_nat_perm_eq _ _ hc, rankedValues_perm_eq _ _ hv,
    hv.count_eq, hv.length_eq, hc.length_eq, sumLens,
    (hv.map String.length).sum_eq]

theorem natLangCustomStats_perm (t : ℚ) (n : Nat) (vs vs₀ : List Value)
    (h : vs.Perm vs₀) :
    natLangCustomStats t n vs = natLangCustomStats t n vs₀ := by
  unfold natLangCustomStats natLangMatchRate
  rw [h.countP_eq, h.length_eq]

theorem mergeList_name (ps : List DatasetFeatureStatistics)
    (init : DatasetFeatureStatistics) :
    (ps.foldl mergeTwoDatasets init).name =
      ps.foldl (fun o p => orElseScalar o p.name) init.name := by
  induction ps generalizing init with
  | nil => rfl
  | cons p ps ih => rw [List.foldl_cons, ih]; rfl

theorem mergeList_num_examples (ps : List DatasetFeatureStatistics)
    (init : DatasetFeatureStatistics) :
    (ps.foldl mergeTwoDatasets init).num_examples =
      ps.foldl (fun o p => orElseScalar o p.num_examples) init.num_examples := by
  induction ps generalizing init with
  | nil => rfl
  | cons p ps ih => rw [List.foldl_cons, ih]; rfl

theorem mergeList_features (ps : List DatasetFeatureStatistics)
    (init : DatasetFeatureStatistics) :
    (ps.foldl mergeTwoDatasets init).features =
      ps.foldl (fun m p => inserts mergeFeatureStats m p.features)
        init.features := by
  induction ps generalizing init with
  | nil => rfl
  | cons p ps ih => rw [List.foldl_cons, ih]; rfl

theorem extract_output_name (opts : StatsOptions) (nm : Option String)
    (a : BasicAcc) :
    (extract_output opts nm a).name =
      (customGeneratorProtos opts).foldl
        (fun o p => orElseScalar o p.name) nm := by
  rw [extract_output, merge_dataset_feature_stats_protos, mergeList_name,
    List.foldl_cons, List.foldl_cons]
  congr 1
  show orElseScalar (orElseScalar none nm) none = nm
  cases nm <;> rfl

theorem extract_output_num_examples (opts : StatsOptions) (nm : Option String)
    (a : BasicAcc) :
    (extract_output opts nm a).num_examples =
      (customGeneratorProtos opts).foldl
        (fun o p => orElseScalar o p.num_examples) (some a.numExamples) :=
  by
  rw [extract_output, merge_dataset_feature_stats_protos,
    mergeList_num_examples, List.foldl_cons, List.foldl_cons]
  rfl

theorem extract_output_features (opts : StatsOptions) (nm : Option String)
    (a : BasicAcc) :
    (extract_output opts nm a).features =
      ((customGeneratorProtos opts).map (fun p => p.features)).foldl
        (inserts mergeFeatureStats)
        (inserts mergeFeatureStats
          (inserts mergeFeatureStats [] (builtinFeatures opts a))
          (semanticFeatures opts a)) := by
  rw [extract_output, merge_dataset_feature_stats_protos, mergeList_features,
    List.foldl_cons, List.foldl_cons, List.foldl_map]
  rfl

theorem nodup_keysOf_extract_output (opts : StatsOptions) (nm : Option String)
    (a : BasicAcc) :
    (keysOf (extract_output opts nm a).features).Nodup := by
  rw [extract_output_features]
  apply nodup_keysOf_foldl_inserts
  apply nodup_keysOf_inserts
  apply nodup_keysOf_inserts
  simp [keysOf]

theorem keysOf_builtinFeatures (opts : StatsOptions) (a : BasicAcc) :
    keysOf (builtinFeatures opts a) = keysOf a.feats :=
  keysOf_map_value _ _

theorem alookup_builtinFeatures (opts : StatsOptions) (a : BasicAcc)
    (k : FeatureName) :
    alookup (builtinFeatures opts a) k =
      (alookup a.feats k).map (extractFeatureStats opts a.numExamples) :=
  alookup_map_value _ _ _

theorem nodup_keysOf_semanticFeatures (opts : StatsOptions) (a : BasicAcc)
    (hn : (keysOf a.feats).Nodup) :
    (keysOf (semanticFeatures opts a)).Nodup := by
  rw [semanticFeatures]
  by_cases he : opts.enable_semantic_domain_stats
  · rw [if_pos he, keysOf_map_value]
    exact hn
  · rw [if_neg he]
    simp [keysOf]

theorem semBody_perm (opts : StatsOptions) (numEx : Nat) (fa fa₀ : FeatAcc)
    (hv : fa.values.Perm fa₀.values) :
    semBody opts numEx fa = semBody opts numEx fa₀ := by
  rw [semBody, semBody,
    natLangCustomStats_perm opts.semantic_threshold numEx _ _ hv]

theorem alookup_semanticFeatures (opts : StatsOptions) (a : BasicAcc)
    (k : FeatureName) :
    alookup (semanticFeatures opts a) k =
      if opts.enable_semantic_domain_stats then
        (alookup a.feats k).map (semBody opts a.numExamples)
      else none := by
  rw [semanticFeatures]
  by_cases he : opts.enable_semantic_domain_stats
  · rw [if_pos he, if_pos he, alookup_map_value]
  · rw [if_neg he, if_neg he]
    rfl

theorem extract_output_alookup (opts : StatsOptions) (nm : Option String)
    (a : BasicAcc) (k : FeatureName) (hn : (keysOf a.feats).Nodup) :
    alookup (extract_output opts nm a).features k =
      ((customGeneratorProtos opts).map (fun p => p.features)).foldl
        (fun o ps => collectFrom mergeFeatureStats k o ps)
        ((alookup (semanticFeatures opts a) k).elim
          (alookup (builtinFeatures opts a) k)
          (ocomb mergeFeatureStats (alookup (builtinFeatures opts a) k))) := by
  rw [extract_output_features, alookup_foldl_inserts]
  congr 1
  rw [alookup_inserts, alookup_inserts,
    show alookup ([] : List (FeatureName × FeatureStatsProto)) k = none
      from rfl,
    collectFrom_nodup_none mergeFeatureStats k _
      (by rw [keysOf_builtinFeatures]; exact hn),
    collectFrom_nodup mergeFeatureStats k _ _
      (nodup_keysOf_semanticFeatures opts a hn)]

theorem extract_output_alookup_perm (opts : StatsOptions) (nm : Option String)
    (es es₀ : List Example) (hp : es.Perm es₀) (k : FeatureName) :
    alookup (extract_output opts nm
        (add_input create_accumulator es)).features k =
      alookup (extract_output opts nm
        (add_input create_accumulator es₀)).features k := by
  rw [extract_output_alookup opts nm _ k (nodup_feats_add_input es),
    extract_output_alookup opts nm _ k (nodup_feats_add_input es₀)]
  congr 1
  have hnum : (add_input create_accumulator es).numExamples =
      (add_input create_accumulator es₀).numExamples := by
    rw [add_input_numExamples, add_input_numExamples, hp.length_eq]
  rw [alookup_builtinFeatures, alookup_builtinFeatures,
    alookup_semanticFeatures, alookup_semanticFeatures, hnum]
  rw [show alookup (add_input create_accumulator es).feats k
      = featLookup es k from rfl,
    show alookup (add_input create_accumulator es₀).feats k
      = featLookup es₀ k from rfl]
  rcases featLookup_perm es es₀ k hp with ⟨h1, h2⟩ | ⟨fa, fa₀, h1, h2, hv, hc⟩
  · rw [h1, h2]
  · rw [h1, h2]
    by_cases he : opts.enable_semantic_domain_stats
    · rw [if_pos he, if_pos he]
      simp only [Option.map_some']
      rw [extractFeatureStats_perm opts _ fa fa₀ hv hc,
        semBody_perm opts _ fa fa₀ hv]
    · rw [if_neg he, if_neg he]
      simp only [Option.map_some']
      rw [extractFeatureStats_perm opts _ fa fa₀ hv hc]

theorem extract_output_features_perm (opts : StatsOptions) (nm : Option String)
    (es es₀ : List Example) (hp : es.Perm es₀) :
    (extract_output opts nm (add_input create_accumulator es)).features.Perm
      (extract_output opts nm (add_input create_accumulator es₀)).features :=
  assoc_perm_of_alookup_eq _ _
    (nodup_keysOf_extract_output opts nm _)
    (nodup_keysOf_extract_output opts nm _)
    (fun k => extract_output_alookup_perm opts nm es es₀ hp k)

/-- Two dataset-statistics records that agree on the slice name, the example
count, and — up to order — on the feature records (whose contents are then
bit-for-bit identical per feature name). -/
def dsEquivUpToFeatureOrder (d d₀ : DatasetFeatureStatistics) : Prop :=
  d.name = d₀.name ∧ d.num_examples = d₀.num_examples ∧
    d.features.Perm d₀.features

theorem processSlice_equiv (opts : StatsOptions) (nm : Option String)
    (groups groups₀ : List (List Example))
    (hp : groups.flatten.Perm groups₀.flatten) :
    dsEquivUpToFeatureOrder (processSlice opts nm groups)
      (processSlice opts nm groups₀) := by
  rw [processSlice, processSlice, merge_accumulators_partition,
    merge_accumulators_partition]
  refine ⟨?_, ?_, extract_output_features_perm opts nm _ _ hp⟩
  · rw [extract_output_name, extract_output_name]
  · rw [extract_output_num_examples, extract_output_num_examples,
      add_input_numExamples, add_input_numExamples, hp.length_eq]

theorem flatten_map_filter (p : Example → Bool) (l : List (List Example)) :
    (l.map (fun b => b.filter p)).flatten = l.flatten.filter p := by
  induction l with
  | nil => rfl
  | cons b l ih =>
    rw [List.map_cons, List.flatten_cons, List.flatten_cons,
      List.filter_append, ih]

theorem forall₂_map_map {κ γ δ : Type} {R : γ → δ → Prop} (l : List κ)
    (f : κ → γ) (g : κ → δ) (h : ∀ k ∈ l, R (f k) (g k)) :
    List.Forall₂ R (l.map f) (l.map g) := by
  induction l with
  | nil => exact List.Forall₂.nil
  | cons a l ih =>
    exact List.Forall₂.cons (h a (List.mem_cons_self a l))
      (ih (fun k hk => h k (List.mem_cons_of_mem a hk)))

/-- Claim C2 (amended): two pipeline runs over the same semantic multiset of
examples that differ in batch sizing, merge-tree shape, or ordering produce
result collections that pair up record by record: paired records have the
same slice name and example count and their feature records are permutations
of each other (so each feature's statistics content is bit-for-bit
identical), the pairing keeps the all-examples record first, and the two
collections agree up to reordering of the dataset records; neither the order
of the feature records inside a record nor the order of the slice records in
the collection (both first-observation orders) is preserved bit-for-bit. -/
theorem claim_c2_amended_output_up_to_order (opts : StatsOptions)
    (groups groups₀ : List (List Example))
    (hp : groups.flatten.Perm groups₀.flatten) :
    ∃ r₀ : List DatasetFeatureStatistics,
      (GenerateStatisticsImpl opts groups₀).Perm r₀ ∧
      List.Forall₂ dsEquivUpToFeatureOrder
        (GenerateStatisticsImpl opts groups) r₀ ∧
      r₀.head?.map (fun d => d.name) =
        (GenerateStatisticsImpl opts groups₀).head?.map (fun d => d.name) := by
  by_cases hs : opts.slice_features.isEmpty
  · refine ⟨[processSlice opts none groups₀], ?_, ?_, ?_⟩
    · rw [GenerateStatisticsImpl, if_pos hs]
    · rw [GenerateStatisticsImpl, if_pos hs]
      exact List.Forall₂.cons (processSlice_equiv opts none groups groups₀ hp)
        List.Forall₂.nil
    · rw [GenerateStatisticsImpl, if_pos hs]
  · have hkeys : ((groups.flatten.flatMap (sliceKeysOf opts)).dedup).Perm
        ((groups₀.flatten.flatMap (sliceKeysOf opts)).dedup) :=
      (hp.flatMap_right _).dedup
    refine ⟨processSlice opts (some "All Examples") groups₀ ::
      ((groups.flatten.flatMap (sliceKeysOf opts)).dedup).map (fun k =>
        processSlice opts (some k) (groups₀.map (fun b =>
          b.filter (fun e => k ∈ sliceKeysOf opts e)))), ?_, ?_, ?_⟩
    · rw [GenerateStatisticsImpl, if_neg hs]
      exact List.Perm.cons _ (hkeys.symm.map _)
    · rw [GenerateStatisticsImpl, if_neg hs]
      refine List.Forall₂.cons
        (processSlice_equiv opts _ groups groups₀ hp)
        (forall₂_map_map _ _ _ (fun k hk => ?_))
      apply processSlice_equiv
      rw [flatten_map_filter, flatten_map_filter]
      exact hp.filter _
    · rw [GenerateStatisticsImpl, if_neg hs, List.head?_cons, List.head?_cons]

def c2ex1 : Example := [("u", ["x"])]

def c2ex2 : Example := [("v", ["y"])]

def c2bx : Example := [("b", ["x"])]

def c2by : Example := [("b", ["y"])]

def c2SlicedOptions : StatsOptions := ⟨2, 3, false, 4/5, ["b"], []⟩

/-- Counterexample to claim C2 as stated: swapping the order of two examples
inside the single batch (the same semantic input set) changes the order of
the feature records inside the resulting dataset-statistics record, so the
output is not bit-for-bit identical; and in a sliced run the same swap also
changes the order of the dataset records in the result collection (the
slice keys are discovered in a different order). -/
theorem claim_c2_counterexample :
    ([[c2ex1, c2ex2]] : List (List Example)).flatten.Perm
      ([[c2ex2, c2ex1]] : List (List Example)).flatten ∧
    (GenerateStatisticsImpl defaultStatsOptions [[c2ex1, c2ex2]]).map
        (fun d => keysOf d.features) ≠
      (GenerateStatisticsImpl defaultStatsOptions [[c2ex2, c2ex1]]).map
        (fun d => keysOf d.features) ∧
    GenerateStatisticsImpl defaultStatsOptions [[c2ex1, c2ex2]] ≠
      GenerateStatisticsImpl defaultStatsOptions [[c2ex2, c2ex1]] ∧
    ([[c2bx, c2by]] : List (List Example)).flatten.Perm
      ([[c2by, c2bx]] : List (List Example)).flatten ∧
    (GenerateStatisticsImpl c2SlicedOptions [[c2bx, c2by]]).map
        (fun d => d.name) ≠
      (GenerateStatisticsImpl c2SlicedOptions [[c2by, c2bx]]).map
        (fun d => d.name) := by
  have hmaps : (GenerateStatisticsImpl defaultStatsOptions
        [[c2ex1, c2ex2]]).map (fun d => keysOf d.features) ≠
      (GenerateStatisticsImpl defaultStatsOptions [[c2ex2, c2ex1]]).map
        (fun d => keysOf d.features) := by decide
  exact ⟨by decide, hmaps, fun h => hmaps (by rw [h]), by decide, by decide⟩

/-- Witness for the amended claim C2 at a sliced configuration: one run with
two singleton batches, one run with a single swapped batch, sliced by the
values of feature `b`. -/
theorem claim_c2_amended_witness :
    ∃ r₀ : List DatasetFeatureStatistics,
      (GenerateStatisticsImpl c2SlicedOptions [[c2by, c2bx]]).Perm r₀ ∧
      List.Forall₂ dsEquivUpToFeatureOrder
        (GenerateStatisticsImpl c2SlicedOptions [[c2bx], [c2by]]) r₀ ∧
      r₀.head?.map (fun d => d.name) =
        (GenerateStatisticsImpl c2SlicedOptions
          [[c2by, c2bx]]).head?.map (fun d => d.name) :=
  claim_c2_amended_output_up_to_order c2SlicedOptions
    [[c2bx], [c2by]] [[c2by, c2bx]] (by decide)

/-! ### Claim C6: semantic-domain statistics -/

/-- The example with recognizable natural-language text, from the
`semantic_domains_enabled` test case. -/
def textExample : Example :=
  [("text_feature", ["This should be natural text"])]

def nonTextExample : Example :=
  [("text_feature", ["Thisshouldnotbenaturaltext"])]

/-- 100 examples: 90 with natural-language text, 10 without. -/
def semanticExamples : List Example :=
  List.replicate 90 textExample ++ List.replicate 10 nonTextExample

def semanticEnabledOptions (t : ℚ) : StatsOptions := ⟨4, 3, true, t, [], []⟩

def semanticDisabledOptions : StatsOptions := ⟨4, 3, false, 4/5, [], []⟩

/-- The multiset of values observed for `text_feature`. -/
def textValues : List Value :=
  List.replicate 90 "This should be natural text" ++
    List.replicate 10 "Thisshouldnotbenaturaltext"

def featureCustomStats (ds : List DatasetFeatureStatistics)
    (f : FeatureName) : List CustomStat :=
  ds.flatMap (fun d =>
    (alookup d.features f).elim [] (fun b => b.custom_stats))

def allCustomStatNames (ds : List DatasetFeatureStatistics) : List String :=
  ds.flatMap (fun d =>
    d.features.flatMap (fun p => p.2.custom_stats.map CustomStat.nameOf))

set_option maxRecDepth 100000 in
/-- Claim C6: on 100 examples of which 90 hold natural-language text for a
feature and 10 do not, with semantic-domain statistics enabled and any match
threshold at most 0.9, the output for that feature carries a `domain_info`
custom stat marking it natural-language together with a match-rate custom
stat whose value is exactly 9/10; with semantic-domain statistics disabled,
no `domain_info` custom stat is present anywhere in the output. -/
theorem claim_c6_semantic_domains (t : ℚ) (ht : t ≤ 9/10) :
    featureCustomStats
        (okDatasets (generate_statistics_in_memory semanticExamples
          (semanticEnabledOptions t))) "text_feature" =
      [CustomStat.strStat "domain_info" "natural_language_domain \x7b\x7d",
       CustomStat.numStat "natural_language_match_rate" (9/10)] ∧
    "domain_info" ∉ allCustomStatNames
      (okDatasets (generate_statistics_in_memory semanticExamples
        semanticDisabledOptions)) := by
  constructor
  · have key : featureCustomStats
        (okDatasets (generate_statistics_in_memory semanticExamples
          (semanticEnabledOptions t))) "text_feature" =
        natLangCustomStats t 100 textValues ++ [] := rfl
    rw [key, List.append_nil]
    have hrate : natLangMatchRate textValues = 9/10 := by
      have h1 : textValues.countP isNaturalText = 90 := by decide
      have h2 : textValues.length = 100 := by decide
      rw [natLangMatchRate, ratDiv, h1, h2]
      norm_num
    rw [natLangCustomStats, hrate, if_pos ⟨by decide, ht⟩]
  · decide

/-- Witness for claim C6 at the threshold 4/5. -/
theorem claim_c6_witness :
    featureCustomStats
        (okDatasets (generate_statistics_in_memory semanticExamples
          (semanticEnabledOptions (4/5)))) "text_feature" =
      [CustomStat.strStat "domain_info" "natural_language_domain \x7b\x7d",
       CustomStat.numStat "natural_language_match_rate" (9/10)] ∧
    "domain_info" ∉ allCustomStatNames
      (okDatasets (generate_statistics_in_memory semanticExamples
        semanticDisabledOptions)) :=
  claim_c6_semantic_domains (4/5) (by norm_num)

end TFDV
